import Mathlib

/-!
Shallow embedding of the anchor-generation and training-loss core of
`nets/ssd_vgg_300.py` (single-shot detector, SSD-300).

Modelling conventions:
* Tensors are Lean lists (nested for higher rank); float scalars are `ℚ`.
* The numeric library's transcendental primitives (`math.sqrt`, the `exp`
  inside `slim.softmax` and the `log` inside
  `tf.nn.sparse_softmax_cross_entropy_with_logits`) are taken as explicit
  function parameters `sq`, `exp`, `log : ℚ → ℚ` of the embedding; theorems
  hold for every interpretation of these parameters (with positivity or
  monotonicity hypotheses stated when actually needed).
* A TensorFlow runtime error (e.g. an out-of-bounds slice) is `none` in an
  `Option` result; a float division by zero produces a non-finite value, not
  an error, and is modelled as `none` of an inner `Option ℚ` for the scalar.
-/

namespace SSD

/-- Cast of a boolean mask entry to a float (`tf.cast(mask, dtype)`). -/
def b2q (b : Bool) : ℚ := if b then 1 else 0

/-- `tf.cast(x, tf.int32)` / Python `int(x)` on a float: truncation toward
zero. -/
def i32cast (x : ℚ) : ℤ := if 0 ≤ x then ⌊x⌋ else -⌊-x⌋

/-- `tf.div(x, batch_size)` where `batch_size` is an integer taken from a
tensor shape.  Float division by zero silently yields a non-finite value
(inf/NaN), modelled as `none`; it does not raise. -/
def tfDivQ (x : ℚ) (b : ℕ) : Option ℚ :=
  if b = 0 then none else some (x / (b : ℚ))

/-- `tf.nn.top_k(xs, k).values`: the `k` largest entries of `xs`, in
descending order (ties broken by index; only the value list is used by the
source). -/
def tf_top_k (xs : List ℚ) (k : ℕ) : List ℚ :=
  (List.insertionSort (fun a b => b ≤ a) xs).take k

/-- `slim.softmax(logits)[:, 0]` for one row of logits: the background
(class-0) probability, `exp z₀ / Σ_j exp z_j`. -/
def softmax0 (exp : ℚ → ℚ) (row : List ℚ) : ℚ :=
  exp (row.getD 0 0) / (row.map exp).sum

/-- `tf.nn.sparse_softmax_cross_entropy_with_logits(logits=row, labels=l)`
for one row: `-log softmax(row)[l] = log (Σ_j exp z_j) - z_l`. -/
def sce (exp log : ℚ → ℚ) (row : List ℚ) (label : ℕ) : ℚ :=
  log ((row.map exp).sum) - row.getD label 0

/-- Modelled from the spec: `custom_layers.abs_smooth` (the repository file
`nets/custom_layers.py` is not under `src/`).  Spec §4.3: smooth-L1 applied
componentwise, `0.5·x²` for `|x| < 1`, else `|x| − 0.5`. -/
def abs_smooth (x : ℚ) : ℚ :=
  if |x| < 1 then x ^ 2 / 2 else |x| - 1 / 2

/-- Line 517: `pmask = gscores > match_threshold` (elementwise). -/
def pmaskOf (match_threshold : ℚ) (gscores : List ℚ) : List Bool :=
  gscores.map (fun s => decide (match_threshold < s))

/-- Line 522: `no_classes = tf.cast(pmask, tf.int32)` — the labels used by
the hard-negative cross-entropy (`True ↦ 1`, `False ↦ 0`). -/
def noClassesOf (pmask : List Bool) : List ℕ :=
  pmask.map (fun b => if b then 1 else 0)

/-- Line 524: `nmask = tf.logical_and(tf.logical_not(pmask), gscores > -0.5)`
— the eligible-negative mask. -/
def nmaskOf (pmask : List Bool) (gscores : List ℚ) : List Bool :=
  List.zipWith (fun p s => !p && decide ((-1/2 : ℚ) < s)) pmask gscores

/-- Line 526: `nvalues = tf.where(nmask, predictions[:, 0], 1. - fnmask)`.
`fnmask` is the float indicator of `nmask`, so at an index where `nmask` is
false the chosen value is `1 - b2q false = 1`. -/
def nvaluesOf (nmask : List Bool) (predbg : List ℚ) : List ℚ :=
  List.zipWith (fun m p => if m then p else 1 - b2q m) nmask predbg

/-- Lines 530-531: `n_neg = min(cast(negative_ratio * n_positives, int32)
+ batch_size, max_neg_entries)`. -/
def nNegOf (neg_ratio : ℚ) (batch_size : ℕ) (n_positives : ℚ)
    (max_neg_entries : ℤ) : ℤ :=
  min (i32cast (neg_ratio * n_positives) + (batch_size : ℤ)) max_neg_entries

/-- Lines 533-534: `val, _ = tf.nn.top_k(-nvalues_flat, k=n_neg);
max_hard_pred = -val[-1]`.  `top_k` raises for a negative `k`, and `val[-1]`
is an out-of-bounds slice when `val` is empty (`n_neg = 0`); both runtime
errors are `none`. -/
def maxHardPredOf (nvalues : List ℚ) (n_neg : ℤ) : Option ℚ :=
  if n_neg < 0 then none
  else ((tf_top_k (nvalues.map Neg.neg) n_neg.toNat).getLast?).map Neg.neg

/-- Line 536: `nmask = tf.logical_and(nmask, nvalues < max_hard_pred)` — the
final hard-negative selection mask. -/
def finalNMaskOf (nmask : List Bool) (nvalues : List ℚ) (mhp : ℚ) : List Bool :=
  List.zipWith (fun m v => m && decide (v < mhp)) nmask nvalues

/-- Lines 540-543: the positive classification loss,
`sum(sparse_ce(logits, gclasses) * fpmask) / batch_size`. -/
def cross_entropy_pos_loss (exp log : ℚ → ℚ) (logits : List (List ℚ))
    (gclasses : List ℕ) (fpmask : List ℚ) (batch_size : ℕ) : Option ℚ :=
  tfDivQ (List.sum (List.zipWith (· * ·)
    (List.zipWith (sce exp log) logits gclasses) fpmask)) batch_size

/-- Lines 545-550: the hard-negative classification loss,
`sum(sparse_ce(logits, no_classes) * fnmask) / batch_size`, where `fnmask`
is the float indicator of the final selection mask. -/
def cross_entropy_neg_loss (exp log : ℚ → ℚ) (logits : List (List ℚ))
    (no_classes : List ℕ) (fnmask : List ℚ) (batch_size : ℕ) : Option ℚ :=
  tfDivQ (List.sum (List.zipWith (· * ·)
    (List.zipWith (sce exp log) logits no_classes) fnmask)) batch_size

/-- Lines 554-559: the localization loss,
`sum(abs_smooth(localisations - glocalisations) * expand_dims(alpha*fpmask))
/ batch_size`: each anchor's four smooth-L1 terms are summed and weighted by
`alpha * fpmask`. -/
def localization_loss (localisations glocalisations : List (List ℚ))
    (fpmask : List ℚ) (alpha : ℚ) (batch_size : ℕ) : Option ℚ :=
  tfDivQ (List.sum (List.zipWith (fun rowloss w => rowloss * (alpha * w))
    (List.zipWith (fun l g =>
      (List.zipWith (fun a b => abs_smooth (a - b)) l g).sum)
      localisations glocalisations)
    fpmask)) batch_size

/-- Result of one invocation of `ssd_losses` (lines 489-562).
`addedLosses` records, in order, the scalars passed to
`tf.losses.add_loss` (positive, hard-negative, localization); each is
`none` when the division by `batch_size` produced a non-finite value.
`ret` is the Python return value: the function body has no `return`
statement (it ends in `pass`), so every call evaluates to `None`,
modelled as `ret = none`. -/
structure SSDLossResult where
  addedLosses : List (Option ℚ)
  ret : Option (Option ℚ × Option ℚ × Option ℚ)
  deriving Repr, DecidableEq

/-- Lines 514-562 of `ssd_losses`, after the flatten-and-concat
preprocessing: all per-anchor arrays are already single flat lists aligned
by anchor index.  `batch_size` stands for `lshape[0]` (the static batch
dimension of `logits[0]`); `label_smoothing` is accepted and ignored, as in
the source.  Returns `none` when the computation raises (the `val[-1]`
slice on an empty `top_k` result, which happens exactly when `n_neg ≤ 0`). -/
def ssd_losses_flat (exp log : ℚ → ℚ) (logits : List (List ℚ))
    (localisations : List (List ℚ)) (gclasses : List ℕ)
    (glocalisations : List (List ℚ)) (gscores : List ℚ)
    (match_threshold neg_ratio alpha label_smoothing : ℚ)
    (batch_size : ℕ) : Option SSDLossResult :=
  let pmask := pmaskOf match_threshold gscores
  let fpmask := pmask.map b2q
  let n_positives := fpmask.sum
  let no_classes := noClassesOf pmask
  let predbg := logits.map (softmax0 exp)
  let nmask := nmaskOf pmask gscores
  let fnmask := nmask.map b2q
  let nvalues := nvaluesOf nmask predbg
  let max_neg_entries := i32cast fnmask.sum
  let n_neg := nNegOf neg_ratio batch_size n_positives max_neg_entries
  match maxHardPredOf nvalues n_neg with
  | none => none
  | some mhp =>
    let fnmask2 := (finalNMaskOf nmask nvalues mhp).map b2q
    some (SSDLossResult.mk
      [cross_entropy_pos_loss exp log logits gclasses fpmask batch_size,
       cross_entropy_neg_loss exp log logits no_classes fnmask2 batch_size,
       localization_loss localisations glocalisations fpmask alpha
         batch_size]
      none)

/-- Lines 497-513: every per-layer tensor is reshaped to `[-1, C]` (row-major
flattening of the `[B,H,W,K,C]` array) and the layers are concatenated; on
the per-layer flattened lists this is `List.join`. -/
def flattenConcat (layers : List (List α)) : List α := layers.flatten

/-- `ssd_losses` (lines 489-562): flatten-and-concat of the per-layer inputs,
then the flat computation. -/
def ssd_losses (exp log : ℚ → ℚ) (logits : List (List (List ℚ)))
    (localisations : List (List (List ℚ))) (gclasses : List (List ℕ))
    (glocalisations : List (List (List ℚ))) (gscores : List (List ℚ))
    (match_threshold neg_ratio alpha label_smoothing : ℚ)
    (batch_size : ℕ) : Option SSDLossResult :=
  ssd_losses_flat exp log (flattenConcat logits) (flattenConcat localisations)
    (flattenConcat gclasses) (flattenConcat glocalisations)
    (flattenConcat gscores) match_threshold neg_ratio alpha label_smoothing
    batch_size

/-- `SSDNet.losses` (lines 182-187): a pure delegation to `ssd_losses` with
the same arguments. -/
def ssdnet_losses (exp log : ℚ → ℚ) (logits : List (List (List ℚ)))
    (localisations : List (List (List ℚ))) (gclasses : List (List ℕ))
    (glocalisations : List (List (List ℚ))) (gscores : List (List ℚ))
    (match_threshold neg_ratio alpha label_smoothing : ℚ)
    (batch_size : ℕ) : Option SSDLossResult :=
  ssd_losses exp log logits localisations gclasses glocalisations gscores
    match_threshold neg_ratio alpha label_smoothing batch_size

/-- Python `range(a, b, s)` for integer arguments: `a, a+s, a+2s, …` strictly
below `b` when `0 < s`; empty when `s < 0` and `a < b` (counting down stops
immediately).  `s = 0` raises in Python and never occurs here. -/
def pyRange (a b s : ℤ) : List ℤ :=
  if 0 < s ∧ a < b then
    (List.range (((b - a - 1) / s).toNat + 1)).map
      (fun (i : ℕ) => a + s * (i : ℤ))
  else []

/-- `ssd_size_bounds_to_values(size_bounds, n_feat_layers, img_shape)`
(lines 195-217).  `none` models the `assert img_shape[0] == img_shape[1]`
failure on a non-square image, and the `ZeroDivisionError` when
`n_feat_layers = 2`.  Otherwise: `min_ratio`/`max_ratio` are the truncated
percentages, `step = floor((max_ratio - min_ratio) / (n_feat_layers - 2))`,
the first pair is `(img_size·b₀/2, img_size·b₀)` and each percentage `p` in
`range(min_ratio, max_ratio+1, step)` adds `(img_size·p/100,
img_size·(p+step)/100)`. -/
def ssd_size_bounds_to_values (size_bounds : ℚ × ℚ) (n_feat_layers : ℕ)
    (img_shape : ℕ × ℕ) : Option (List (ℚ × ℚ)) :=
  if img_shape.1 ≠ img_shape.2 then none
  else if n_feat_layers = 2 then none
  else
    let img_size : ℚ := (img_shape.1 : ℚ)
    let min_ratio := i32cast (size_bounds.1 * 100)
    let max_ratio := i32cast (size_bounds.2 * 100)
    let step : ℤ := (max_ratio - min_ratio).fdiv ((n_feat_layers : ℤ) - 2)
    some ((img_size * size_bounds.1 / 2, img_size * size_bounds.1) ::
      (pyRange min_ratio (max_ratio + 1) step).map (fun (p : ℤ) =>
        (img_size * (p : ℚ) / 100, img_size * ((p : ℚ) + (step : ℚ)) / 100)))

/-- The loop body of `ssd_feat_shapes_from_net` (lines 229-241): `shape` is a
prediction tensor's static shape with `none` for an unknown dimension;
`shape[1:4]` is checked for `None`; the Python `return default_shapes` inside
the loop (which discards every shape accumulated so far) is modelled as the
`none` result of the loop. -/
def featShapesLoop : List (List (Option ℕ)) → List (List ℕ) →
    Option (List (List ℕ))
  | [], acc => some acc
  | p :: rest, acc =>
    if ((p.drop 1).take 3).contains none then none
    else featShapesLoop rest
      (acc ++ [((p.drop 1).take 3).map (fun d => d.getD 0)])

/-- `ssd_feat_shapes_from_net(predictions, default_shapes)` (lines 221-242):
each prediction is represented by its static shape (a list of optional
dimensions). -/
def ssd_feat_shapes_from_net (preds : List (List (Option ℕ)))
    (default_shapes : List (List ℕ)) : List (List ℕ) :=
  (featShapesLoop preds []).getD default_shapes

/-- One cell of the `h` vector of `ssd_anchor_one_layer` (lines 280-294): a
zero-initialised array of length `len(sizes) + len(ratios)` whose index 0 is
`sizes[0]/img_h`, index 1 (only when a second size is supplied) is
`sqrt(sizes[0]·sizes[1])/img_h`, and indices `di + i` (with `di = 2` when a
second size is supplied, else `1`) are `sizes[0]/img_h/sqrt(ratios[i])`;
remaining cells keep their zero initial value. -/
def anchorH (sq : ℚ → ℚ) (img_h : ℚ) (sizes ratios : List ℚ) (j : ℕ) : ℚ :=
  if j = 0 then sizes.getD 0 0 / img_h
  else if j = 1 ∧ 1 < sizes.length then
    sq (sizes.getD 0 0 * sizes.getD 1 0) / img_h
  else if (if 1 < sizes.length then 2 else 1) ≤ j ∧
      j < (if 1 < sizes.length then 2 else 1) + ratios.length then
    sizes.getD 0 0 / img_h /
      sq (ratios.getD (j - (if 1 < sizes.length then 2 else 1)) 0)
  else 0

/-- One cell of the `w` vector of `ssd_anchor_one_layer` (lines 280-294):
same scheme as `anchorH` but over `img_w`, with the ratio anchors using
`sizes[0]/img_w * sqrt(ratios[i])`. -/
def anchorW (sq : ℚ → ℚ) (img_w : ℚ) (sizes ratios : List ℚ) (j : ℕ) : ℚ :=
  if j = 0 then sizes.getD 0 0 / img_w
  else if j = 1 ∧ 1 < sizes.length then
    sq (sizes.getD 0 0 * sizes.getD 1 0) / img_w
  else if (if 1 < sizes.length then 2 else 1) ≤ j ∧
      j < (if 1 < sizes.length then 2 else 1) + ratios.length then
    sizes.getD 0 0 / img_w *
      sq (ratios.getD (j - (if 1 < sizes.length then 2 else 1)) 0)
  else 0

/-- `ssd_anchor_one_layer(img_shape, feat_shape, sizes, ratios, step, offset)`
(lines 245-295).  `math.sqrt` is the parameter `sq`.  Returns
`(y, x, h, w)`: the `[H,W]` center grids `y[i][j] = (i+offset)·step/img_h`,
`x[i][j] = (j+offset)·step/img_w` (the trailing broadcast dimension added by
`expand_dims` is shape bookkeeping and is not modelled), and the per-cell
anchor height/width vectors of length `len(sizes) + len(ratios)`. -/
def ssd_anchor_one_layer (sq : ℚ → ℚ) (img_shape : ℚ × ℚ)
    (feat_shape : ℕ × ℕ) (sizes ratios : List ℚ) (step offset : ℚ) :
    List (List ℚ) × List (List ℚ) × List ℚ × List ℚ :=
  let y := (List.range feat_shape.1).map (fun (i : ℕ) =>
    (List.range feat_shape.2).map (fun (_ : ℕ) =>
      ((i : ℚ) + offset) * step / img_shape.1))
  let x := (List.range feat_shape.1).map (fun (_ : ℕ) =>
    (List.range feat_shape.2).map (fun (j : ℕ) =>
      ((j : ℚ) + offset) * step / img_shape.2))
  let num_anchors := sizes.length + ratios.length
  let h := (List.range num_anchors).map (anchorH sq img_shape.1 sizes ratios)
  let w := (List.range num_anchors).map (anchorW sq img_shape.2 sizes ratios)
  (y, x, h, w)

/-- `ssd_anchors_all_layers` (lines 298-307): one call of
`ssd_anchor_one_layer` per configured layer, preserving layer order. -/
def ssd_anchors_all_layers (sq : ℚ → ℚ) (img_shape : ℚ × ℚ)
    (layers_shape : List (ℕ × ℕ)) (anchor_sizes anchor_ratios : List (List ℚ))
    (anchor_steps : List ℚ) (offset : ℚ) :
    List (List (List ℚ) × List (List ℚ) × List ℚ × List ℚ) :=
  (List.range layers_shape.length).map (fun i =>
    ssd_anchor_one_layer sq img_shape (layers_shape.getD i (0, 0))
      (anchor_sizes.getD i []) (anchor_ratios.getD i [])
      (anchor_steps.getD i 0) offset)

/-- `SSDNet.detected_bboxes` (lines 168-180).  The external routines
(`ssd_common.tf_ssd_bboxes_select`, `tfe.bboxes_sort`,
`tfe.bboxes_nms_batch`, `tfe.bboxes_clip`) live in repository modules outside
`src/` and are declared external collaborators by the spec (§4.4); they are
taken as opaque function parameters over abstract types `P` (predictions),
`L` (localisations), `R` (clipping rectangle) and `D` (scores/boxes
detection state).  The body threads the parameters exactly as the source:
select with `(select_threshold, num_classes)`, sort with `top_k`, NMS with
`(nms_threshold, keep_top_k)`, then clip only when a rectangle is
supplied. -/
def detected_bboxes {P L R D : Type}
    (bboxes_select : Option ℚ → ℕ → P → L → D)
    (bboxes_sort : ℕ → D → D) (bboxes_nms_batch : ℚ → ℕ → D → D)
    (bboxes_clip : R → D → D) (num_classes : ℕ)
    (predictions : P) (localisations : L) (select_threshold : Option ℚ)
    (nms_threshold : ℚ) (clipping_bbox : Option R)
    (top_k keep_top_k : ℕ) : D :=
  let r1 := bboxes_select select_threshold num_classes predictions
    localisations
  let r2 := bboxes_sort top_k r1
  let r3 := bboxes_nms_batch nms_threshold keep_top_k r2
  match clipping_bbox with
  | some cb => bboxes_clip cb r3
  | none => r3

/-- Modelled from the spec: the pipeline claimed by C9/§4.4, whose first step
decodes the localisations against the AnchorSet (`decode` with anchor set
`anchors` of abstract type `A`) before selection.  This is the claim's
pipeline, written for comparison with the code's `detected_bboxes`, which
performs no decode step. -/
def detected_bboxes_claimed {A P L R D : Type} (decode : A → L → L)
    (anchors : A) (bboxes_select : Option ℚ → ℕ → P → L → D)
    (bboxes_sort : ℕ → D → D) (bboxes_nms_batch : ℚ → ℕ → D → D)
    (bboxes_clip : R → D → D) (num_classes : ℕ)
    (predictions : P) (localisations : L) (select_threshold : Option ℚ)
    (nms_threshold : ℚ) (clipping_bbox : Option R)
    (top_k keep_top_k : ℕ) : D :=
  let r1 := bboxes_select select_threshold num_classes predictions
    (decode anchors localisations)
  let r2 := bboxes_sort top_k r1
  let r3 := bboxes_nms_batch nms_threshold keep_top_k r2
  match clipping_bbox with
  | some cb => bboxes_clip cb r3
  | none => r3

/-! ### Helper lemmas -/

theorem getD_range_map (f : ℕ → α) (n j : ℕ) (d : α) (hj : j < n) :
    (((List.range n).map f).getD j d) = f j := by
  simp [List.getD_eq_getElem?_getD, hj]

theorem featShapesLoop_all_known (preds : List (List (Option ℕ)))
    (h : ∀ p ∈ preds, ¬(((p.drop 1).take 3).contains none = true)) :
    ∀ acc, featShapesLoop preds acc =
      some (acc ++ preds.map (fun p =>
        ((p.drop 1).take 3).map (fun d => d.getD 0))) := by
  induction preds with
  | nil => intro acc; rw [featShapesLoop]; simp
  | cons p rest ih =>
    intro acc
    have hp := h p (by simp)
    rw [featShapesLoop, if_neg hp,
      ih (fun q hq => h q (List.mem_cons_of_mem _ hq))]
    simp

theorem featShapesLoop_some_unknown (preds : List (List (Option ℕ)))
    (h : ∃ p ∈ preds, ((p.drop 1).take 3).contains none = true) :
    ∀ acc, featShapesLoop preds acc = none := by
  induction preds with
  | nil => simp at h
  | cons p rest ih =>
    intro acc
    rw [featShapesLoop]
    by_cases hp : ((p.drop 1).take 3).contains none = true
    · rw [if_pos hp]
    · rw [if_neg hp]
      rcases h with ⟨q, hq, hqc⟩
      rcases List.mem_cons.mp hq with rfl | hq'
      · exact absurd hqc hp
      · exact ih ⟨q, hq', hqc⟩ _

theorem getD_map_of_lt (f : α → β) (l : List α) (k : ℕ) (d : α) (d' : β)
    (hk : k < l.length) : (l.map f).getD k d' = f (l.getD k d) := by
  simp [List.getD_eq_getElem?_getD, List.getElem?_map,
    List.getElem?_eq_getElem hk]

theorem pyRange_getD (a b s : ℤ) (k : ℕ) (hk : k < (pyRange a b s).length) :
    (pyRange a b s).getD k 0 = a + s * (k : ℤ) := by
  by_cases h : 0 < s ∧ a < b
  · rw [pyRange, if_pos h] at hk ⊢
    rw [List.length_map, List.length_range] at hk
    exact getD_range_map _ _ _ _ hk
  · rw [pyRange, if_neg h] at hk
    simp at hk

/-! ### C2 -/

/-- C2: the claim says that with every gscore ≤ −0.5 the loss computation
completes without error with `n_pos = 0`, `n_neg = 0` and zero losses.  The
code does reach `n_pos = 0` and `n_neg = min(0·3 + 1, 0) = 0`, but then
`tf.nn.top_k(·, k=0)` returns an empty tensor and the slice `val[-1]`
(line 534) is out of bounds — a runtime error, modelled as the `none`
result.  The spec's intent (§7: "zero eligible negatives clamps n_neg to
zero", handled, not an error) is contradicted by the code. -/
theorem C2_all_ignored_gscores_raise :
    ((pmaskOf (1/2) [(-1 : ℚ)]).map b2q).sum = 0 ∧
    nNegOf 3 1 0
      (i32cast (((nmaskOf (pmaskOf (1/2) [(-1 : ℚ)]) [(-1 : ℚ)]).map
        b2q).sum)) = 0 ∧
    ssd_losses (fun x => x + 2) (fun _ => 0) [[[0, 0]]] [[[0, 0, 0, 0]]]
      [[0]] [[[0, 0, 0, 0]]] [[(-1 : ℚ)]] (1/2) 3 1 0 1 = none := by
  refine ⟨by norm_num [pmaskOf, b2q], by norm_num [nNegOf, nmaskOf, pmaskOf,
    b2q, i32cast], ?_⟩
  norm_num [ssd_losses, ssd_losses_flat, flattenConcat, pmaskOf, nmaskOf,
    nvaluesOf, noClassesOf, nNegOf, maxHardPredOf, tf_top_k, i32cast, b2q,
    softmax0, List.insertionSort, List.orderedInsert]

/-! ### C4 -/

/-- C4 counterexample: the claim says the divisions by `batch_size` are
guarded.  They are not: the division block of lines 540-543
(`cross_entropy_pos_loss`) evaluated at `batch_size = 0` silently yields
the non-finite marker of `tfDivQ` (an unguarded `tf.div`, whose `none`
means a NaN/inf value, not an exception — see `tfDivQ`), and the raise
that does occur on a `batch_size = 0` run originates earlier, at the
`val[-1]` slice on the empty `top_k` result of line 534
(`maxHardPredOf … = none`, the runtime-error marker), with
`n_neg = min(int(3·0) + 0, 0) = 0`. -/
theorem C4_counterexample :
    cross_entropy_pos_loss (fun x => x + 2) (fun _ => 0) [[(0 : ℚ), 0]]
      [0] [1] 0 = none ∧
    maxHardPredOf ([] : List ℚ) (nNegOf 3 0 0 (i32cast 0)) = none := by
  constructor
  · rfl
  · norm_num [nNegOf, maxHardPredOf, tf_top_k, i32cast]

/-- C4 (amended): invoking the loss assembler with `batch_size = 0` (all
flattened per-anchor arrays are then empty) does raise an error rather
than silently producing NaN/inf losses — but not through a guard on the
divisions by `batch_size`, which are unguarded `tf.div` operations: the
raise comes from the out-of-bounds `val[-1]` slice on the empty
`tf.nn.top_k` result (`n_neg = min(int(negative_ratio·0) + 0, 0) = 0`),
which precedes every division. -/
theorem C4_zero_batch_size_raises (exp log : ℚ → ℚ)
    (match_threshold neg_ratio alpha label_smoothing : ℚ) :
    ssd_losses exp log [] [] [] [] [] match_threshold neg_ratio alpha
      label_smoothing 0 = none := by
  simp [ssd_losses, ssd_losses_flat, flattenConcat, pmaskOf, nmaskOf,
    nvaluesOf, noClassesOf, nNegOf, maxHardPredOf, tf_top_k, i32cast]

/-! ### C6 -/

/-- C6 counterexample: `size_bounds_to_absolute((0.15, 0.9), 6, 300)` does
not reproduce the documented table `[(21,45), …]`: its first pair is
`(img_size·0.15/2, img_size·0.15) = (22.5, 45)`, not `(21, 45)`.  (The
remaining five pairs do match the table.) -/
theorem C6_counterexample :
    ssd_size_bounds_to_values (3/20, 9/10) 6 (300, 300) =
      some [(45/2, 45), (45, 99), (99, 153), (153, 207), (207, 261),
        (261, 315)] ∧
    ((45 : ℚ)/2, (45 : ℚ)) ≠ ((21 : ℚ), (45 : ℚ)) := by
  constructor
  · norm_num [ssd_size_bounds_to_values, pyRange, i32cast, Int.fdiv,
      show Int.toNat 4 = 4 from rfl, List.range_succ]
  · norm_num [Prod.ext_iff]

/-- C6 (amended): for a square image and at least 3 layers, the first layer
gets the fixed special pair `(img_size·b₀/2, img_size·b₀)` (which at
`((0.15,0.9), 6, 300)` is `(22.5, 45)`, not the documented `(21, 45)`);
layer `k+1` gets `(img_size·p_k/100, img_size·(p_k+step)/100)` with
`p_k = min_ratio + k·step` and `step = floor((max_ratio−min_ratio)/(n−2))`;
a non-square image shape fails with a configuration error. -/
theorem C6_size_bounds_schedule (b : ℚ × ℚ) (n k : ℕ) (img : ℕ × ℕ)
    (im1 im2 : ℕ) (hsq : img.1 = img.2) (hn : 3 ≤ n)
    (hk : k < (pyRange (i32cast (b.1 * 100)) (i32cast (b.2 * 100) + 1)
      ((i32cast (b.2 * 100) - i32cast (b.1 * 100)).fdiv
        ((n : ℤ) - 2))).length)
    (hne : im1 ≠ im2) :
    (ssd_size_bounds_to_values b n img).isSome = true ∧
    ((ssd_size_bounds_to_values b n img).getD []).getD 0 (0, 0) =
      ((img.1 : ℚ) * b.1 / 2, (img.1 : ℚ) * b.1) ∧
    ((ssd_size_bounds_to_values b n img).getD []).getD (k + 1) (0, 0) =
      ((img.1 : ℚ) * (((i32cast (b.1 * 100) +
          (i32cast (b.2 * 100) - i32cast (b.1 * 100)).fdiv ((n : ℤ) - 2) *
            (k : ℤ) : ℤ) : ℚ)) / 100,
       (img.1 : ℚ) * ((((i32cast (b.1 * 100) +
          (i32cast (b.2 * 100) - i32cast (b.1 * 100)).fdiv ((n : ℤ) - 2) *
            (k : ℤ) : ℤ) : ℚ)) +
          (((i32cast (b.2 * 100) - i32cast (b.1 * 100)).fdiv
            ((n : ℤ) - 2) : ℤ) : ℚ)) / 100) ∧
    ssd_size_bounds_to_values b n (im1, im2) = none := by
  have hn2 : ¬(n = 2) := by omega
  refine ⟨?_, ?_, ?_, ?_⟩
  · rw [ssd_size_bounds_to_values, if_neg (by simp [hsq]), if_neg hn2]
    rfl
  · rw [ssd_size_bounds_to_values, if_neg (by simp [hsq]), if_neg hn2]
    rfl
  · rw [ssd_size_bounds_to_values, if_neg (by simp [hsq]), if_neg hn2]
    simp only [Option.getD_some, List.getD_cons_succ]
    rw [getD_map_of_lt _ _ _ 0 _ hk, pyRange_getD _ _ _ _ hk]
  · rw [ssd_size_bounds_to_values, if_pos (by simpa using hne)]

/-- C6 witness: the amended schedule theorem applied at
`((0.15, 0.9), 6, (300,300))`, index `k = 4`, and the non-square shape
`(300, 512)`. -/
theorem C6_size_bounds_schedule_witness :
    (ssd_size_bounds_to_values (3/20, 9/10) 6 (300, 300)).isSome = true ∧
    ((ssd_size_bounds_to_values (3/20, 9/10) 6 (300, 300)).getD []).getD 0
        (0, 0) =
      ((300 : ℚ) * (3/20) / 2, (300 : ℚ) * (3/20)) ∧
    ((ssd_size_bounds_to_values (3/20, 9/10) 6 (300, 300)).getD []).getD
        (4 + 1) (0, 0) =
      ((300 : ℚ) * (((i32cast ((3/20 : ℚ) * 100) +
          (i32cast ((9/10 : ℚ) * 100) - i32cast ((3/20 : ℚ) * 100)).fdiv
            ((6 : ℤ) - 2) * ((4 : ℕ) : ℤ) : ℤ) : ℚ)) / 100,
       (300 : ℚ) * ((((i32cast ((3/20 : ℚ) * 100) +
          (i32cast ((9/10 : ℚ) * 100) - i32cast ((3/20 : ℚ) * 100)).fdiv
            ((6 : ℤ) - 2) * ((4 : ℕ) : ℤ) : ℤ) : ℚ)) +
          (((i32cast ((9/10 : ℚ) * 100) - i32cast ((3/20 : ℚ) * 100)).fdiv
            ((6 : ℤ) - 2) : ℤ) : ℚ)) / 100) ∧
    ssd_size_bounds_to_values (3/20, 9/10) 6 (300, 512) = none :=
  C6_size_bounds_schedule (3/20, 9/10) 6 4 (300, 300) 300 512 rfl
    (by decide)
    (by norm_num [pyRange, i32cast, Int.fdiv, show Int.toNat 4 = 4 from rfl])
    (by decide)

/-! ### C7 -/

/-- C7 counterexample: with layer 0 fully known (shape `[1,38,38,4,21]`)
and layer 1 containing an unknown dimension, the function returns the
entire fallback list — layer 0's result is its fallback entry `[5,5,5]`,
not its actual shape `[38,38,4]`, so the per-layer-independence claim
fails. -/
theorem C7_counterexample :
    ssd_feat_shapes_from_net
      [[some 1, some 38, some 38, some 4, some 21],
       [some 1, none, some 10, some 6, some 21]]
      [[5, 5, 5], [7, 7, 7]] = [[5, 5, 5], [7, 7, 7]] ∧
    ([5, 5, 5] : List ℕ) ≠ [38, 38, 4] := by
  decide

/-- C7 (amended): the decision is per call, not per layer: when every
layer's sliced shape `shape[1:4]` is fully known, each layer contributes
exactly that shape; as soon as any layer has an unknown dimension, the
whole fallback list is returned unchanged and the known layers' shapes are
discarded. -/
theorem C7_feat_shapes_per_call (preds1 preds2 : List (List (Option ℕ)))
    (defaults : List (List ℕ))
    (h1 : ∀ p ∈ preds1, ¬(((p.drop 1).take 3).contains none = true))
    (h2 : ∃ p ∈ preds2, ((p.drop 1).take 3).contains none = true) :
    ssd_feat_shapes_from_net preds1 defaults =
      preds1.map (fun p => ((p.drop 1).take 3).map (fun d => d.getD 0)) ∧
    ssd_feat_shapes_from_net preds2 defaults = defaults := by
  constructor
  · rw [ssd_feat_shapes_from_net, featShapesLoop_all_known preds1 h1]
    simp
  · rw [ssd_feat_shapes_from_net, featShapesLoop_some_unknown preds2 h2]
    rfl

/-- C7 witness: the amended theorem applied to an all-known list and to a
list with one unknown dimension. -/
theorem C7_feat_shapes_per_call_witness :
    ssd_feat_shapes_from_net [[some 1, some 38, some 38, some 4, some 21]]
      [[9, 9, 9]] =
      ([[some 1, some 38, some 38, some 4, some 21]] :
        List (List (Option ℕ))).map
        (fun p => ((p.drop 1).take 3).map (fun d => d.getD 0)) ∧
    ssd_feat_shapes_from_net [[some 1, none, some 10, some 6, some 21]]
      [[9, 9, 9]] = [[9, 9, 9]] :=
  C7_feat_shapes_per_call [[some 1, some 38, some 38, some 4, some 21]]
    [[some 1, none, some 10, some 6, some 21]] [[9, 9, 9]]
    (by decide) (by decide)

/-! ### C9 -/

/-- C9 counterexample: the claim says `detected_bboxes` performs a decode
step first.  Instantiating the external routines over `ℕ` with a decode
that is observable (`l ↦ l + 1`) and all other steps the identity, the
claimed pipeline (with decode) and the code's pipeline differ: the code
performs no decode. -/
theorem C9_counterexample :
    @detected_bboxes ℕ ℕ ℕ ℕ (fun _ _ _ l => l) (fun _ d => d)
      (fun _ _ d => d) (fun _ d => d) 21 0 0 none (1/2) none 400 200 = 0 ∧
    @detected_bboxes_claimed ℕ ℕ ℕ ℕ ℕ (fun _ l => l + 1) 0
      (fun _ _ _ l => l) (fun _ d => d) (fun _ _ d => d) (fun _ d => d)
      21 0 0 none (1/2) none 400 200 = 1 ∧
    (0 : ℕ) ≠ 1 := by
  refine ⟨rfl, rfl, by decide⟩

/-- C9 (amended): `detected_bboxes` operates on already-decoded
localisations (decoding is the separate `bboxes_decode` entry point) and
composes the external steps in the fixed order select → sort/top_k →
NMS/keep_top_k → optional clip: with a clipping rectangle supplied the
result is the clip of the NMS output (the NMS-first result), without one
no clip is applied, and for every instantiation of the externals the code
equals the claimed pipeline with the decode step replaced by the
identity. -/
theorem C9_pipeline_order {A P L R D : Type} (anchors : A)
    (bsel : Option ℚ → ℕ → P → L → D) (bsort : ℕ → D → D)
    (bnms : ℚ → ℕ → D → D) (bclip : R → D → D) (nc : ℕ) (p : P) (l : L)
    (st : Option ℚ) (nt : ℚ) (cb : Option R) (cbr : R) (tk kk : ℕ) :
    detected_bboxes bsel bsort bnms bclip nc p l st nt (some cbr) tk kk =
      bclip cbr (bnms nt kk (bsort tk (bsel st nc p l))) ∧
    detected_bboxes bsel bsort bnms bclip nc p l st nt none tk kk =
      bnms nt kk (bsort tk (bsel st nc p l)) ∧
    detected_bboxes bsel bsort bnms bclip nc p l st nt cb tk kk =
      detected_bboxes_claimed (fun _ x => x) anchors bsel bsort bnms bclip
        nc p l st nt cb tk kk := by
  refine ⟨rfl, rfl, ?_⟩
  cases cb <;> rfl

/-! ### C5 -/

/-- C5: for every layer with two reference sizes, `generate_layer` produces
`K = len(sizes) + len(ratios)` anchors per cell in the fixed order
[ratio-1 small, ratio-1 large, one per ratio in list order] with
anchor 0 `h = w = sizes[0]/img`, anchor 1 `h = w = sqrt(sizes[0]·sizes[1])/img`
and ratio anchor `i` at index `2+i` with `h = sizes[0]/img_h/sqrt(rᵢ)`,
`w = sizes[0]/img_w·sqrt(rᵢ)`; in particular for `sizes=[21,45]`,
`ratios=[2,0.5]`, `feat_shape=38×38`, `img=300` it yields `K = 4`, a 38×38
center grid, and exactly the four claimed (h, w) pairs — for every
interpretation `sq` of `math.sqrt`. -/
theorem C5_anchor_layer_geometry (sq : ℚ → ℚ) (img_h img_w step offset : ℚ)
    (H W : ℕ) (sizes ratios : List ℚ) (i : ℕ)
    (hs2 : 1 < sizes.length) (hi : i < ratios.length) :
    ((ssd_anchor_one_layer sq (img_h, img_w) (H, W) sizes ratios step
        offset).2.2.1).length = sizes.length + ratios.length ∧
    ((ssd_anchor_one_layer sq (img_h, img_w) (H, W) sizes ratios step
        offset).2.2.1).getD 0 0 = sizes.getD 0 0 / img_h ∧
    ((ssd_anchor_one_layer sq (img_h, img_w) (H, W) sizes ratios step
        offset).2.2.2).getD 0 0 = sizes.getD 0 0 / img_w ∧
    ((ssd_anchor_one_layer sq (img_h, img_w) (H, W) sizes ratios step
        offset).2.2.1).getD 1 0 =
      sq (sizes.getD 0 0 * sizes.getD 1 0) / img_h ∧
    ((ssd_anchor_one_layer sq (img_h, img_w) (H, W) sizes ratios step
        offset).2.2.2).getD 1 0 =
      sq (sizes.getD 0 0 * sizes.getD 1 0) / img_w ∧
    ((ssd_anchor_one_layer sq (img_h, img_w) (H, W) sizes ratios step
        offset).2.2.1).getD (2 + i) 0 =
      sizes.getD 0 0 / img_h / sq (ratios.getD i 0) ∧
    ((ssd_anchor_one_layer sq (img_h, img_w) (H, W) sizes ratios step
        offset).2.2.2).getD (2 + i) 0 =
      sizes.getD 0 0 / img_w * sq (ratios.getD i 0) ∧
    (ssd_anchor_one_layer sq (300, 300) (38, 38) [21, 45] [2, 1/2] 8
        (1/2)).2.2.1 =
      [21/300, sq 945 / 300, 21/300 / sq 2, 21/300 / sq (1/2)] ∧
    (ssd_anchor_one_layer sq (300, 300) (38, 38) [21, 45] [2, 1/2] 8
        (1/2)).2.2.2 =
      [21/300, sq 945 / 300, 21/300 * sq 2, 21/300 * sq (1/2)] ∧
    ((ssd_anchor_one_layer sq (300, 300) (38, 38) [21, 45] [2, 1/2] 8
        (1/2)).1).length = 38 ∧
    (((ssd_anchor_one_layer sq (300, 300) (38, 38) [21, 45] [2, 1/2] 8
        (1/2)).1).getD 0 []).length = 38 := by
  have hdi : (if 1 < sizes.length then 2 else 1) = 2 := if_pos hs2
  have hK0 : 0 < sizes.length + ratios.length := by omega
  have hK1 : 1 < sizes.length + ratios.length := by omega
  have hK2 : 2 + i < sizes.length + ratios.length := by omega
  refine ⟨by simp [ssd_anchor_one_layer], ?_, ?_, ?_, ?_, ?_, ?_, ?_, ?_,
    ?_, ?_⟩
  · rw [ssd_anchor_one_layer]
    exact (getD_range_map _ _ _ _ hK0).trans (by simp [anchorH])
  · rw [ssd_anchor_one_layer]
    exact (getD_range_map _ _ _ _ hK0).trans (by simp [anchorW])
  · rw [ssd_anchor_one_layer]
    exact (getD_range_map _ _ _ _ hK1).trans (by simp [anchorH, hs2])
  · rw [ssd_anchor_one_layer]
    exact (getD_range_map _ _ _ _ hK1).trans (by simp [anchorW, hs2])
  · rw [ssd_anchor_one_layer]
    refine (getD_range_map _ _ _ _ hK2).trans ?_
    rw [anchorH]
    simp only [hdi]
    rw [if_neg (by omega), if_neg (by omega), if_pos (by omega)]
    simp
  · rw [ssd_anchor_one_layer]
    refine (getD_range_map _ _ _ _ hK2).trans ?_
    rw [anchorW]
    simp only [hdi]
    rw [if_neg (by omega), if_neg (by omega), if_pos (by omega)]
    simp
  · norm_num [ssd_anchor_one_layer, anchorH, List.range_succ]
  · norm_num [ssd_anchor_one_layer, anchorW, List.range_succ]
  · simp [ssd_anchor_one_layer]
  · rw [ssd_anchor_one_layer]
    exact congrArg List.length (getD_range_map _ _ _ _ (by norm_num)) |>.trans
      (by simp)

/-- C5 witness: the geometry theorem at the default first layer,
`sizes = [21, 45]`, `ratios = [2, 0.5]`, 38×38 grid, 300×300 image,
ratio index 0, with `sq` the identity interpretation. -/
theorem C5_anchor_layer_geometry_witness :
    ((ssd_anchor_one_layer (fun q => q) ((300 : ℚ), (300 : ℚ)) (38, 38)
        [21, 45] [2, 1/2] 8 (1/2)).2.2.1).length =
      ([(21 : ℚ), 45] : List ℚ).length + ([(2 : ℚ), 1/2] : List ℚ).length ∧
    ((ssd_anchor_one_layer (fun q => q) ((300 : ℚ), (300 : ℚ)) (38, 38)
        [21, 45] [2, 1/2] 8 (1/2)).2.2.1).getD 0 0 =
      ([(21 : ℚ), 45] : List ℚ).getD 0 0 / 300 ∧
    ((ssd_anchor_one_layer (fun q => q) ((300 : ℚ), (300 : ℚ)) (38, 38)
        [21, 45] [2, 1/2] 8 (1/2)).2.2.2).getD 0 0 =
      ([(21 : ℚ), 45] : List ℚ).getD 0 0 / 300 ∧
    ((ssd_anchor_one_layer (fun q => q) ((300 : ℚ), (300 : ℚ)) (38, 38)
        [21, 45] [2, 1/2] 8 (1/2)).2.2.1).getD 1 0 =
      (fun q => q) (([(21 : ℚ), 45] : List ℚ).getD 0 0 *
        ([(21 : ℚ), 45] : List ℚ).getD 1 0) / 300 ∧
    ((ssd_anchor_one_layer (fun q => q) ((300 : ℚ), (300 : ℚ)) (38, 38)
        [21, 45] [2, 1/2] 8 (1/2)).2.2.2).getD 1 0 =
      (fun q => q) (([(21 : ℚ), 45] : List ℚ).getD 0 0 *
        ([(21 : ℚ), 45] : List ℚ).getD 1 0) / 300 ∧
    ((ssd_anchor_one_layer (fun q => q) ((300 : ℚ), (300 : ℚ)) (38, 38)
        [21, 45] [2, 1/2] 8 (1/2)).2.2.1).getD (2 + 0) 0 =
      ([(21 : ℚ), 45] : List ℚ).getD 0 0 / 300 /
        (fun q => q) (([(2 : ℚ), 1/2] : List ℚ).getD 0 0) ∧
    ((ssd_anchor_one_layer (fun q => q) ((300 : ℚ), (300 : ℚ)) (38, 38)
        [21, 45] [2, 1/2] 8 (1/2)).2.2.2).getD (2 + 0) 0 =
      ([(21 : ℚ), 45] : List ℚ).getD 0 0 / 300 *
        (fun q => q) (([(2 : ℚ), 1/2] : List ℚ).getD 0 0) ∧
    (ssd_anchor_one_layer (fun q => q) ((300 : ℚ), (300 : ℚ)) (38, 38)
        [21, 45] [2, 1/2] 8 (1/2)).2.2.1 =
      [21/300, (fun q => q) (945 : ℚ) / 300, 21/300 / (fun q => q) (2 : ℚ),
        21/300 / (fun q => q) ((1 : ℚ)/2)] ∧
    (ssd_anchor_one_layer (fun q => q) ((300 : ℚ), (300 : ℚ)) (38, 38)
        [21, 45] [2, 1/2] 8 (1/2)).2.2.2 =
      [21/300, (fun q => q) (945 : ℚ) / 300, 21/300 * (fun q => q) (2 : ℚ),
        21/300 * (fun q => q) ((1 : ℚ)/2)] ∧
    ((ssd_anchor_one_layer (fun q => q) ((300 : ℚ), (300 : ℚ)) (38, 38)
        [21, 45] [2, 1/2] 8 (1/2)).1).length = 38 ∧
    (((ssd_anchor_one_layer (fun q => q) ((300 : ℚ), (300 : ℚ)) (38, 38)
        [21, 45] [2, 1/2] 8 (1/2)).1).getD 0 []).length = 38 :=
  C5_anchor_layer_geometry (fun q => q) 300 300 8 (1/2) 38 38 [21, 45]
    [2, 1/2] 0 (by decide) (by decide)

theorem anchorH_bounds (sq : ℚ → ℚ) (img_h : ℚ) (sizes ratios : List ℚ)
    (k : ℕ) (hih : 0 < img_h) (hs0 : 0 ≤ sizes.getD 0 0)
    (hs0h : sizes.getD 0 0 ≤ img_h)
    (hsq2 : 0 ≤ sq (sizes.getD 0 0 * sizes.getD 1 0))
    (hsq2h : sq (sizes.getD 0 0 * sizes.getD 1 0) ≤ img_h)
    (hr : ∀ r ∈ ratios, 0 < sq r ∧ sizes.getD 0 0 ≤ img_h * sq r) :
    0 ≤ anchorH sq img_h sizes ratios k ∧
      anchorH sq img_h sizes ratios k ≤ 1 := by
  have hratio : ∀ di : ℕ, di ≤ k → k < di + ratios.length →
      0 ≤ sizes.getD 0 0 / img_h / sq (ratios.getD (k - di) 0) ∧
      sizes.getD 0 0 / img_h / sq (ratios.getD (k - di) 0) ≤ 1 := by
    intro di hle hlt
    have hidx : k - di < ratios.length := by omega
    have hmem : ratios.getD (k - di) 0 ∈ ratios := by
      rw [List.getD_eq_getElem _ _ hidx]
      exact List.getElem_mem _
    obtain ⟨hpos, hb⟩ := hr _ hmem
    rw [div_div]
    exact ⟨div_nonneg hs0 (mul_pos hih hpos).le,
      (div_le_one (mul_pos hih hpos)).2 hb⟩
  by_cases h0 : k = 0
  · rw [anchorH, if_pos h0]
    exact ⟨div_nonneg hs0 hih.le, (div_le_one hih).2 hs0h⟩
  by_cases h1 : k = 1 ∧ 1 < sizes.length
  · rw [anchorH, if_neg h0, if_pos h1]
    exact ⟨div_nonneg hsq2 hih.le, (div_le_one hih).2 hsq2h⟩
  by_cases h2 : (if 1 < sizes.length then 2 else 1) ≤ k ∧
      k < (if 1 < sizes.length then 2 else 1) + ratios.length
  · rw [anchorH, if_neg h0, if_neg h1, if_pos h2]
    exact hratio _ h2.1 h2.2
  · rw [anchorH, if_neg h0, if_neg h1, if_neg h2]
    exact ⟨le_refl 0, zero_le_one⟩

theorem anchorW_bounds (sq : ℚ → ℚ) (img_w : ℚ) (sizes ratios : List ℚ)
    (k : ℕ) (hiw : 0 < img_w) (hs0 : 0 ≤ sizes.getD 0 0)
    (hs0w : sizes.getD 0 0 ≤ img_w)
    (hsq2 : 0 ≤ sq (sizes.getD 0 0 * sizes.getD 1 0))
    (hsq2w : sq (sizes.getD 0 0 * sizes.getD 1 0) ≤ img_w)
    (hr : ∀ r ∈ ratios, 0 < sq r ∧ sizes.getD 0 0 * sq r ≤ img_w) :
    0 ≤ anchorW sq img_w sizes ratios k ∧
      anchorW sq img_w sizes ratios k ≤ 1 := by
  have hratio : ∀ di : ℕ, di ≤ k → k < di + ratios.length →
      0 ≤ sizes.getD 0 0 / img_w * sq (ratios.getD (k - di) 0) ∧
      sizes.getD 0 0 / img_w * sq (ratios.getD (k - di) 0) ≤ 1 := by
    intro di hle hlt
    have hidx : k - di < ratios.length := by omega
    have hmem : ratios.getD (k - di) 0 ∈ ratios := by
      rw [List.getD_eq_getElem _ _ hidx]
      exact List.getElem_mem _
    obtain ⟨hpos, hb⟩ := hr _ hmem
    constructor
    · exact mul_nonneg (div_nonneg hs0 hiw.le) hpos.le
    · rw [div_mul_eq_mul_div]
      exact (div_le_one hiw).2 hb
  by_cases h0 : k = 0
  · rw [anchorW, if_pos h0]
    exact ⟨div_nonneg hs0 hiw.le, (div_le_one hiw).2 hs0w⟩
  by_cases h1 : k = 1 ∧ 1 < sizes.length
  · rw [anchorW, if_neg h0, if_pos h1]
    exact ⟨div_nonneg hsq2 hiw.le, (div_le_one hiw).2 hsq2w⟩
  by_cases h2 : (if 1 < sizes.length then 2 else 1) ≤ k ∧
      k < (if 1 < sizes.length then 2 else 1) + ratios.length
  · rw [anchorW, if_neg h0, if_neg h1, if_pos h2]
    exact hratio _ h2.1 h2.2
  · rw [anchorW, if_neg h0, if_neg h1, if_neg h2]
    exact ⟨le_refl 0, zero_le_one⟩

/-! ### C8 -/

/-- C8 counterexample: in the default configuration the fourth feature
layer is a 10×10 grid with step 32 (image 300), and its last center-y
value is `(9 + 0.5)·32/300 = 304/300 = 76/75 > 1` — the center grids are
not all within `[0, 1]`. -/
theorem C8_counterexample :
    (((ssd_anchor_one_layer (fun _ => 0) (300, 300) (10, 10) [99, 153]
        [2, 1/2] 32 (1/2)).1).getD 9 []).getD 0 0 = 76/75 ∧
    ¬((76 : ℚ)/75 ≤ 1) := by
  constructor
  · rw [ssd_anchor_one_layer]
    rw [getD_range_map _ _ _ _ (by norm_num), getD_range_map _ _ _ _
      (by norm_num)]
    norm_num
  · norm_num

/-- C8 (amended): the center grids of `generate_layer` are always
nonnegative (for nonnegative offset and step and positive image size), and
they lie in `[0, 1]` exactly under the additional condition
`(H−1+offset)·step ≤ img_h` (resp. width) — which the default
configuration's 10×10/step-32 layer violates, giving a center 304/300 > 1;
the `h`/`w` entries lie in `[0, 1]` provided the reference sizes and
`sqrt`-interpretation satisfy `0 ≤ sizes[0] ≤ img`,
`0 ≤ sqrt(sizes[0]·sizes[1]) ≤ img` and, for every ratio `r`,
`0 < sqrt r`, `sizes[0] ≤ img_h·sqrt r` and `sizes[0]·sqrt r ≤ img_w`. -/
theorem C8_anchor_value_ranges (sq : ℚ → ℚ) (img_h img_w step offset : ℚ)
    (H W : ℕ) (sizes ratios : List ℚ) (i j k : ℕ)
    (hih : 0 < img_h) (hiw : 0 < img_w) (hoff : 0 ≤ offset)
    (hst : 0 ≤ step) (hi : i < H) (hj : j < W)
    (hyb : ((H : ℚ) - 1 + offset) * step ≤ img_h)
    (hxb : ((W : ℚ) - 1 + offset) * step ≤ img_w)
    (hk : k < sizes.length + ratios.length)
    (hs0 : 0 ≤ sizes.getD 0 0)
    (hs0h : sizes.getD 0 0 ≤ img_h) (hs0w : sizes.getD 0 0 ≤ img_w)
    (hsq2 : 0 ≤ sq (sizes.getD 0 0 * sizes.getD 1 0))
    (hsq2h : sq (sizes.getD 0 0 * sizes.getD 1 0) ≤ img_h)
    (hsq2w : sq (sizes.getD 0 0 * sizes.getD 1 0) ≤ img_w)
    (hr : ∀ r ∈ ratios, 0 < sq r ∧ sizes.getD 0 0 ≤ img_h * sq r ∧
      sizes.getD 0 0 * sq r ≤ img_w) :
    (0 ≤ (((ssd_anchor_one_layer sq (img_h, img_w) (H, W) sizes ratios step
        offset).1).getD i []).getD j 0 ∧
      (((ssd_anchor_one_layer sq (img_h, img_w) (H, W) sizes ratios step
        offset).1).getD i []).getD j 0 ≤ 1) ∧
    (0 ≤ (((ssd_anchor_one_layer sq (img_h, img_w) (H, W) sizes ratios step
        offset).2.1).getD i []).getD j 0 ∧
      (((ssd_anchor_one_layer sq (img_h, img_w) (H, W) sizes ratios step
        offset).2.1).getD i []).getD j 0 ≤ 1) ∧
    (0 ≤ ((ssd_anchor_one_layer sq (img_h, img_w) (H, W) sizes ratios step
        offset).2.2.1).getD k 0 ∧
      ((ssd_anchor_one_layer sq (img_h, img_w) (H, W) sizes ratios step
        offset).2.2.1).getD k 0 ≤ 1) ∧
    (0 ≤ ((ssd_anchor_one_layer sq (img_h, img_w) (H, W) sizes ratios step
        offset).2.2.2).getD k 0 ∧
      ((ssd_anchor_one_layer sq (img_h, img_w) (H, W) sizes ratios step
        offset).2.2.2).getD k 0 ≤ 1) := by
  have hcast : ∀ n m : ℕ, n < m → (n : ℚ) ≤ (m : ℚ) - 1 := by
    intro n m hnm
    have : (n : ℚ) + 1 ≤ (m : ℚ) := by exact_mod_cast hnm
    linarith
  have hcenter : ∀ (n m : ℕ) (img : ℚ), n < m → 0 < img →
      ((m : ℚ) - 1 + offset) * step ≤ img →
      0 ≤ ((n : ℚ) + offset) * step / img ∧
        ((n : ℚ) + offset) * step / img ≤ 1 := by
    intro n m img hnm himg hb
    constructor
    · exact div_nonneg (mul_nonneg (add_nonneg (Nat.cast_nonneg n) hoff)
        hst) himg.le
    · rw [div_le_one himg]
      calc ((n : ℚ) + offset) * step ≤ ((m : ℚ) - 1 + offset) * step := by
            have := hcast n m hnm
            apply mul_le_mul_of_nonneg_right _ hst
            linarith
        _ ≤ img := hb
  refine ⟨?_, ?_, ?_, ?_⟩
  · rw [ssd_anchor_one_layer]
    rw [getD_range_map _ _ _ _ hi, getD_range_map _ _ _ _ hj]
    exact hcenter i H img_h hi hih hyb
  · rw [ssd_anchor_one_layer]
    rw [getD_range_map _ _ _ _ hi, getD_range_map _ _ _ _ hj]
    exact hcenter j W img_w hj hiw hxb
  · rw [ssd_anchor_one_layer]
    rw [getD_range_map _ _ _ _ hk]
    exact anchorH_bounds sq img_h sizes ratios k hih hs0 hs0h hsq2 hsq2h
      (fun r hrr => ⟨(hr r hrr).1, (hr r hrr).2.1⟩)
  · rw [ssd_anchor_one_layer]
    rw [getD_range_map _ _ _ _ hk]
    exact anchorW_bounds sq img_w sizes ratios k hiw hs0 hs0w hsq2 hsq2w
      (fun r hrr => ⟨(hr r hrr).1, (hr r hrr).2.2⟩)

/-- C8 witness: the amended range theorem at the default first layer (38×38
grid, step 8, offset 0.5, image 300, sizes [21,45], ratios [2,0.5]), with a
rational interpretation of `sqrt` (`sqrt 2 ≈ 577/408`,
`sqrt(1/2) ≈ 408/577`, `sqrt 945 ≈ 1537/50`), at grid cell (0,0) and anchor
index 3. -/
theorem C8_anchor_value_ranges_witness :
    (0 ≤ (((ssd_anchor_one_layer
        (fun q => if q = 2 then 577/408 else if q = 1/2 then 408/577
          else if q = 945 then 1537/50 else 1)
        ((300 : ℚ), (300 : ℚ)) (38, 38) [21, 45] [2, 1/2] 8 (1/2)).1).getD
          0 []).getD 0 0 ∧
      (((ssd_anchor_one_layer
        (fun q => if q = 2 then 577/408 else if q = 1/2 then 408/577
          else if q = 945 then 1537/50 else 1)
        ((300 : ℚ), (300 : ℚ)) (38, 38) [21, 45] [2, 1/2] 8 (1/2)).1).getD
          0 []).getD 0 0 ≤ 1) ∧
    (0 ≤ (((ssd_anchor_one_layer
        (fun q => if q = 2 then 577/408 else if q = 1/2 then 408/577
          else if q = 945 then 1537/50 else 1)
        ((300 : ℚ), (300 : ℚ)) (38, 38) [21, 45] [2, 1/2] 8 (1/2)).2.1).getD
          0 []).getD 0 0 ∧
      (((ssd_anchor_one_layer
        (fun q => if q = 2 then 577/408 else if q = 1/2 then 408/577
          else if q = 945 then 1537/50 else 1)
        ((300 : ℚ), (300 : ℚ)) (38, 38) [21, 45] [2, 1/2] 8 (1/2)).2.1).getD
          0 []).getD 0 0 ≤ 1) ∧
    (0 ≤ ((ssd_anchor_one_layer
        (fun q => if q = 2 then 577/408 else if q = 1/2 then 408/577
          else if q = 945 then 1537/50 else 1)
        ((300 : ℚ), (300 : ℚ)) (38, 38) [21, 45] [2, 1/2] 8
          (1/2)).2.2.1).getD 3 0 ∧
      ((ssd_anchor_one_layer
        (fun q => if q = 2 then 577/408 else if q = 1/2 then 408/577
          else if q = 945 then 1537/50 else 1)
        ((300 : ℚ), (300 : ℚ)) (38, 38) [21, 45] [2, 1/2] 8
          (1/2)).2.2.1).getD 3 0 ≤ 1) ∧
    (0 ≤ ((ssd_anchor_one_layer
        (fun q => if q = 2 then 577/408 else if q = 1/2 then 408/577
          else if q = 945 then 1537/50 else 1)
        ((300 : ℚ), (300 : ℚ)) (38, 38) [21, 45] [2, 1/2] 8
          (1/2)).2.2.2).getD 3 0 ∧
      ((ssd_anchor_one_layer
        (fun q => if q = 2 then 577/408 else if q = 1/2 then 408/577
          else if q = 945 then 1537/50 else 1)
        ((300 : ℚ), (300 : ℚ)) (38, 38) [21, 45] [2, 1/2] 8
          (1/2)).2.2.2).getD 3 0 ≤ 1) :=
  C8_anchor_value_ranges
    (fun q => if q = 2 then 577/408 else if q = 1/2 then 408/577
      else if q = 945 then 1537/50 else 1)
    300 300 8 (1/2) 38 38 [21, 45] [2, 1/2] 0 0 3
    (by norm_num) (by norm_num) (by norm_num) (by norm_num)
    (by norm_num) (by norm_num) (by norm_num) (by norm_num) (by norm_num)
    (by norm_num) (by norm_num) (by norm_num) (by norm_num) (by norm_num)
    (by norm_num) (by intro r hrr; fin_cases hrr <;> norm_num)

theorem getD_zipWith {α β γ : Type} (f : α → β → γ) (as : List α)
    (bs : List β) (i : ℕ) (d : α) (d' : β) (dg : γ)
    (ha : i < as.length) (hb : i < bs.length) :
    (List.zipWith f as bs).getD i dg = f (as.getD i d) (bs.getD i d') := by
  induction as generalizing bs i with
  | nil => simp at ha
  | cons a at' ih =>
    cases bs with
    | nil => simp at hb
    | cons b bt =>
      cases i with
      | zero => simp
      | succ n =>
        simp only [List.zipWith_cons_cons, List.getD_cons_succ]
        exact ih bt n (by simpa using ha) (by simpa using hb)

theorem finalNMask_imp (nm : List Bool) (nv : List ℚ) (mhp : ℚ) (i : ℕ)
    (h : (finalNMaskOf nm nv mhp).getD i false = true) :
    i < nm.length ∧ i < nv.length ∧ nm.getD i false = true ∧
      nv.getD i 0 < mhp := by
  induction nm generalizing nv i with
  | nil => simp [finalNMaskOf] at h
  | cons m mt ih =>
    cases nv with
    | nil => simp [finalNMaskOf] at h
    | cons v vt =>
      cases i with
      | zero =>
        simp only [finalNMaskOf, List.zipWith_cons_cons,
          List.getD_cons_zero] at h
        simp only [Bool.and_eq_true, decide_eq_true_eq] at h
        simp [h.1, h.2]
      | succ n =>
        simp only [finalNMaskOf, List.zipWith_cons_cons,
          List.getD_cons_succ] at h
        obtain ⟨h1, h2, h3, h4⟩ := ih vt n h
        exact ⟨by simpa using Nat.succ_lt_succ h1,
          by simpa using Nat.succ_lt_succ h2, by simpa using h3,
          by simpa using h4⟩

theorem nmask_imp (pm : List Bool) (gs : List ℚ) (i : ℕ)
    (h : (nmaskOf pm gs).getD i false = true) :
    i < pm.length ∧ i < gs.length ∧ pm.getD i false = false ∧
      (-1/2 : ℚ) < gs.getD i 0 := by
  induction pm generalizing gs i with
  | nil => simp [nmaskOf] at h
  | cons p pt ih =>
    cases gs with
    | nil => simp [nmaskOf] at h
    | cons g gt =>
      cases i with
      | zero =>
        simp only [nmaskOf, List.zipWith_cons_cons, List.getD_cons_zero] at h
        simp only [Bool.and_eq_true, Bool.not_eq_eq_eq_not, Bool.not_true,
          decide_eq_true_eq] at h
        simp only [List.length_cons, List.getD_cons_zero]
        exact ⟨Nat.succ_pos _, Nat.succ_pos _, by simpa using h.1, h.2⟩
      | succ n =>
        simp only [nmaskOf, List.zipWith_cons_cons, List.getD_cons_succ] at h
        obtain ⟨h1, h2, h3, h4⟩ := ih gt n h
        exact ⟨by simpa using Nat.succ_lt_succ h1,
          by simpa using Nat.succ_lt_succ h2, by simpa using h3,
          by simpa using h4⟩

/-! ### C10 -/

/-- C10: the positive mask and the final hard-negative mask are disjoint
(an anchor contributes to at most one of the two classification loss
sums), and every anchor weighted into the hard-negative loss is scored
against label 0: its entry in `no_classes = cast(pmask, int32)` is 0.
This holds for every input, every interpretation of the softmax, and
every threshold value `max_hard_pred`. -/
theorem C10_pos_and_hard_negative_disjoint (exp : ℚ → ℚ) (th mhp : ℚ)
    (gscores : List ℚ) (logits : List (List ℚ)) (i : ℕ) :
    (((pmaskOf th gscores).getD i false) &&
      ((finalNMaskOf (nmaskOf (pmaskOf th gscores) gscores)
        (nvaluesOf (nmaskOf (pmaskOf th gscores) gscores)
          (logits.map (softmax0 exp))) mhp).getD i false)) = false ∧
    (if (finalNMaskOf (nmaskOf (pmaskOf th gscores) gscores)
        (nvaluesOf (nmaskOf (pmaskOf th gscores) gscores)
          (logits.map (softmax0 exp))) mhp).getD i false
      then (noClassesOf (pmaskOf th gscores)).getD i 1 else 0) = 0 := by
  by_cases hf : (finalNMaskOf (nmaskOf (pmaskOf th gscores) gscores)
      (nvaluesOf (nmaskOf (pmaskOf th gscores) gscores)
        (logits.map (softmax0 exp))) mhp).getD i false = true
  · obtain ⟨hn1, _, hnm, _⟩ := finalNMask_imp _ _ _ _ hf
    obtain ⟨hp1, _, hpm, _⟩ := nmask_imp _ _ _ hnm
    constructor
    · rw [hpm]
      simp
    · rw [if_pos hf, noClassesOf, getD_map_of_lt _ _ _ false _ hp1, hpm]
      simp
  · rw [Bool.not_eq_true] at hf
    rw [hf]
    simp

theorem count_finalN_le_countP (nm : List Bool) (nv : List ℚ) (mhp : ℚ) :
    (finalNMaskOf nm nv mhp).count true ≤
      nv.countP (fun v => decide (v < mhp)) := by
  induction nm generalizing nv with
  | nil => simp [finalNMaskOf]
  | cons m mt ih =>
    cases nv with
    | nil => simp [finalNMaskOf]
    | cons v vt =>
      have hih := ih vt
      simp only [finalNMaskOf, List.zipWith_cons_cons, List.count_cons,
        List.countP_cons, beq_iff_eq] at hih ⊢
      have hif : (if (m && decide (v < mhp)) = true then 1 else 0) ≤
          (if decide (v < mhp) = true then 1 else 0) := by
        cases m <;> simp
      omega

theorem countP_lt_getD_of_sorted (s : List ℚ)
    (hs : List.Sorted (fun a b => a ≤ b) s) (m : ℕ) (hm : m < s.length) :
    s.countP (fun x => decide (x < s.getD m 0)) ≤ m := by
  set c := s.getD m 0 with hc
  rw [← List.take_append_drop m s, List.countP_append]
  have h1 : (s.take m).countP (fun x => decide (x < c)) ≤ m := by
    refine le_trans (List.countP_le_length _) ?_
    rw [List.length_take]
    omega
  have h2 : (s.drop m).countP (fun x => decide (x < c)) = 0 := by
    rw [List.countP_eq_zero]
    intro x hx
    obtain ⟨j, hj, hxj⟩ := List.mem_iff_getElem.1 hx
    have hmj : m + j < s.length := by
      rw [List.length_drop] at hj
      omega
    have hxval : x = s[m + j] := by
      rw [← hxj]
      exact List.getElem_drop _
    have hcval : c = s[m] := hc.trans (List.getD_eq_getElem s 0 hm)
    have hle : s[m] ≤ s[m + j] := by
      rcases Nat.eq_zero_or_pos j with rfl | hjpos
      · exact le_of_eq (by simp)
      · exact List.pairwise_iff_getElem.1 hs m (m + j) hm hmj (by omega)
    simp only [decide_eq_true_eq]
    rw [hxval, hcval]
    exact not_lt.2 hle
  omega

theorem insertionSort_neg_eq (l : List ℚ) :
    List.insertionSort (fun a b => b ≤ a) (l.map Neg.neg) =
      (List.insertionSort (fun a b => a ≤ b) l).map Neg.neg := by
  haveI ht : IsTotal ℚ (fun a b => b ≤ a) := ⟨fun a b => le_total b a⟩
  haveI htr : IsTrans ℚ (fun a b => b ≤ a) :=
    ⟨fun a b c h1 h2 => le_trans h2 h1⟩
  haveI hanti : IsAntisymm ℚ (fun a b => b ≤ a) :=
    ⟨fun a b h1 h2 => le_antisymm h2 h1⟩
  refine List.eq_of_perm_of_sorted ?_ (List.sorted_insertionSort _ _) ?_
  · exact (List.perm_insertionSort _ _).trans
      (((List.perm_insertionSort _ l).map _).symm)
  · exact List.Pairwise.map _ (fun a b h => neg_le_neg h)
      (List.sorted_insertionSort _ l)

theorem maxHardPred_char (nv : List ℚ) (nneg : ℤ) (mhp : ℚ)
    (h : maxHardPredOf nv nneg = some mhp) (hlen : nneg.toNat ≤ nv.length) :
    1 ≤ nneg.toNat ∧ 0 ≤ nneg ∧ nneg.toNat - 1 < nv.length ∧
      mhp = (List.insertionSort (fun a b => a ≤ b) nv).getD
        (nneg.toNat - 1) 0 := by
  rw [maxHardPredOf] at h
  by_cases hneg : nneg < 0
  · rw [if_pos hneg] at h
    exact absurd h (by simp)
  rw [if_neg hneg] at h
  rw [tf_top_k, insertionSort_neg_eq, ← List.map_take,
    List.getLast?_map] at h
  rw [Option.map_map] at h
  have hcomp : (Neg.neg ∘ Neg.neg : ℚ → ℚ) = id := by
    funext x
    simp
  rw [hcomp, Option.map_id] at h
  have hne : (List.insertionSort (fun a b => a ≤ b) nv).take nneg.toNat
      ≠ [] := by
    intro hemp
    rw [hemp] at h
    simp at h
  have hk1 : 1 ≤ nneg.toNat := by
    by_contra hk
    have : nneg.toNat = 0 := by omega
    rw [this, List.take_zero] at hne
    exact hne rfl
  have hslen : (List.insertionSort (fun a b => a ≤ b) nv).length =
      nv.length := List.length_insertionSort _ _
  have htlen : ((List.insertionSort (fun a b => a ≤ b) nv).take
      nneg.toNat).length = nneg.toNat := by
    rw [List.length_take, hslen]
    omega
  have hidx : nneg.toNat - 1 < nv.length := by omega
  rw [List.getLast?_eq_getElem?, htlen, List.getElem?_take_of_lt
    (by omega : nneg.toNat - 1 < nneg.toNat)] at h
  rw [List.getElem?_eq_getElem (by omega : nneg.toNat - 1 <
    (List.insertionSort (fun a b => a ≤ b) nv).length)] at h
  refine ⟨hk1, by omega, hidx, ?_⟩
  have := Option.some.inj h
  rw [← this, List.getD_eq_getElem _ 0 (by omega : nneg.toNat - 1 <
    (List.insertionSort (fun a b => a ≤ b) nv).length)]

theorem sum_b2q_count (l : List Bool) :
    (l.map b2q).sum = (l.count true : ℚ) := by
  induction l with
  | nil => simp
  | cons a t ih =>
    cases a
    · simpa [b2q, List.count_cons] using ih
    · simp only [List.map_cons, List.sum_cons, b2q, if_pos, ih,
        List.count_cons, beq_self_eq_true, if_true]
      push_cast
      ring

theorem i32cast_natCast (n : ℕ) : i32cast (n : ℚ) = n := by
  rw [i32cast, if_pos (by positivity)]
  exact_mod_cast Int.floor_natCast n

/-! ### C1 -/

/-- C1 counterexample: with one positive anchor and three eligible
negatives of background probabilities 2/5 < 3/5 < 4/5 (softmax interpreted
with `exp := (· + 2)`), batch_size 1 and negative_ratio 3, the code
computes `n_neg = min(3, 3·1 + 1) = 3`, `max_hard_pred = 4/5` (the 3rd
smallest hardness value), but the final mask `nmask ∧ nvalues <
max_hard_pred` (line 536, strict) selects only the 2 anchors with value
strictly below 4/5 — not exactly `n_neg = 3` anchors as claimed. -/
theorem C1_counterexample :
    nNegOf 3 1 (((pmaskOf (1/2) ([1, 0, 0, 0] : List ℚ)).map b2q).sum)
      (i32cast (((nmaskOf (pmaskOf (1/2) ([1, 0, 0, 0] : List ℚ))
        ([1, 0, 0, 0] : List ℚ)).map b2q).sum)) = 3 ∧
    maxHardPredOf (nvaluesOf (nmaskOf (pmaskOf (1/2)
        ([1, 0, 0, 0] : List ℚ)) ([1, 0, 0, 0] : List ℚ))
      (([[0, 0], [0, 1], [1, 0], [2, -1]] : List (List ℚ)).map
        (softmax0 (fun x => x + 2)))) 3 = some (4/5) ∧
    (finalNMaskOf (nmaskOf (pmaskOf (1/2) ([1, 0, 0, 0] : List ℚ))
        ([1, 0, 0, 0] : List ℚ))
      (nvaluesOf (nmaskOf (pmaskOf (1/2) ([1, 0, 0, 0] : List ℚ))
        ([1, 0, 0, 0] : List ℚ))
        (([[0, 0], [0, 1], [1, 0], [2, -1]] : List (List ℚ)).map
          (softmax0 (fun x => x + 2)))) (4/5)).count true = 2 ∧
    (2 : ℕ) ≠ 3 := by
  refine ⟨?_, ?_, ?_, by decide⟩
  · norm_num [nNegOf, pmaskOf, nmaskOf, b2q, i32cast]
  · norm_num [maxHardPredOf, tf_top_k, nvaluesOf, nmaskOf, pmaskOf,
      softmax0, b2q, List.insertionSort, List.orderedInsert,
      show Int.toNat 3 = 3 from rfl, List.take_succ_cons,
      List.getLast?_cons_cons, List.getLast?_singleton]
  · norm_num [finalNMaskOf, nvaluesOf, nmaskOf, pmaskOf, softmax0, b2q,
      List.count_cons]

/-- C1 (amended): the hard-negative mining step selects the eligible
anchors whose hardness value is *strictly below* the `n_neg`-th smallest
hardness value (`max_hard_pred`), which selects strictly fewer than
`n_neg` anchors (at most `n_neg − 1` when values are distinct, fewer under
ties).  The remaining parts of the claim hold: every selected anchor is
eligible, no eligible anchor with a strictly lower background probability
than a selected one is left unselected, and the selected count is (a
fortiori strictly) below `min(eligible-negative count,
int(negative_ratio·n_pos) + batch_size)`. -/
theorem C1_hard_negative_selection (exp : ℚ → ℚ) (th ratio : ℚ)
    (batch : ℕ) (gscores : List ℚ) (logits : List (List ℚ))
    (pm nm : List Bool) (nv : List ℚ) (nneg : ℤ) (mhp : ℚ) (i j : ℕ)
    (hlen : logits.length = gscores.length)
    (hpm : pm = pmaskOf th gscores)
    (hnm : nm = nmaskOf pm gscores)
    (hnv : nv = nvaluesOf nm (logits.map (softmax0 exp)))
    (hnneg : nneg = nNegOf ratio batch ((pm.map b2q).sum)
      (i32cast ((nm.map b2q).sum)))
    (hmhp : maxHardPredOf nv nneg = some mhp)
    (hi : (finalNMaskOf nm nv mhp).getD i false = true)
    (hj : nm.getD j false = true)
    (hij : nv.getD j 0 < nv.getD i 0) :
    nm.getD i false = true ∧
    (finalNMaskOf nm nv mhp).getD j false = true ∧
    ((finalNMaskOf nm nv mhp).count true : ℤ) < nneg ∧
    nneg ≤ i32cast (ratio * (pm.map b2q).sum) + (batch : ℤ) ∧
    nneg ≤ i32cast ((nm.map b2q).sum) := by
  have hpml : pm.length = gscores.length := by
    rw [hpm, pmaskOf, List.length_map]
  have hnml : nm.length = gscores.length := by
    rw [hnm, nmaskOf, List.length_zipWith, hpml]
    omega
  have hnvl : nv.length = gscores.length := by
    rw [hnv, nvaluesOf, List.length_zipWith, hnml, List.length_map, hlen]
    omega
  obtain ⟨hi1, hi2, hnmi, hvi⟩ := finalNMask_imp nm nv mhp i hi
  have hjlen : j < nm.length := by
    by_contra hcon
    rw [List.getD_eq_default _ _ (by omega)] at hj
    exact Bool.false_ne_true hj
  have hjlen2 : j < nv.length := by omega
  refine ⟨hnmi, ?_, ?_, ?_, ?_⟩
  · rw [finalNMaskOf, getD_zipWith _ _ _ _ false 0 _ hjlen hjlen2]
    rw [hj]
    simp only [Bool.true_and, decide_eq_true_eq]
    exact lt_trans hij hvi
  · have hmaxneg : i32cast ((nm.map b2q).sum) = (nm.count true : ℤ) := by
      rw [sum_b2q_count, i32cast_natCast]
    have hcount : nm.count true ≤ nm.length := List.count_le_length _ _
    have hnneg_le : nneg ≤ (nm.count true : ℤ) := by
      rw [hnneg, nNegOf, hmaxneg]
      exact min_le_right _ _
    have hlen2 : nneg.toNat ≤ nv.length := by
      rw [hnvl, ← hnml]
      omega
    obtain ⟨hk1, hpos0, hidx, hmhpeq⟩ := maxHardPred_char nv nneg mhp
      hmhp hlen2
    have hc1 := count_finalN_le_countP nm nv mhp
    have hperm := List.perm_insertionSort (fun a b => a ≤ b) nv
    have hc2 : nv.countP (fun v => decide (v < mhp)) =
        (List.insertionSort (fun a b => a ≤ b) nv).countP
          (fun v => decide (v < mhp)) := (hperm.countP_eq _).symm
    have hsorted : List.Sorted (fun a b => a ≤ b)
        (List.insertionSort (fun a b => a ≤ b) nv) :=
      List.sorted_insertionSort _ _
    have hidx' : nneg.toNat - 1 <
        (List.insertionSort (fun a b => a ≤ b) nv).length := by
      rw [List.length_insertionSort]
      exact hidx
    have hc3 := countP_lt_getD_of_sorted _ hsorted (nneg.toNat - 1) hidx'
    rw [← hmhpeq] at hc3
    omega
  · rw [hnneg, nNegOf]
    exact min_le_left _ _
  · rw [hnneg, nNegOf]
    exact min_le_right _ _

/-- C1 witness: the amended selection theorem at the four-anchor input of
the counterexample, with selected anchor `i = 2` (hardness 3/5) and
eligible anchor `j = 1` (hardness 2/5 < 3/5). -/
theorem C1_hard_negative_selection_witness :
    ([false, true, true, true] : List Bool).getD 2 false = true ∧
    (finalNMaskOf [false, true, true, true]
      ([1, 2/5, 3/5, 4/5] : List ℚ) (4/5)).getD 1 false = true ∧
    ((finalNMaskOf [false, true, true, true]
      ([1, 2/5, 3/5, 4/5] : List ℚ) (4/5)).count true : ℤ) < 3 ∧
    (3 : ℤ) ≤ i32cast (3 * ((([true, false, false, false] :
      List Bool).map b2q).sum)) + ((1 : ℕ) : ℤ) ∧
    (3 : ℤ) ≤ i32cast ((([false, true, true, true] :
      List Bool).map b2q).sum) :=
  C1_hard_negative_selection (fun x => x + 2) (1/2) 3 1
    ([1, 0, 0, 0] : List ℚ)
    ([[0, 0], [0, 1], [1, 0], [2, -1]] : List (List ℚ))
    [true, false, false, false] [false, true, true, true]
    ([1, 2/5, 3/5, 4/5] : List ℚ) 3 (4/5) 2 1
    rfl
    (by norm_num [pmaskOf])
    (by norm_num [nmaskOf])
    (by norm_num [nvaluesOf, softmax0, b2q])
    (by norm_num [nNegOf, b2q, i32cast])
    (by norm_num [maxHardPredOf, tf_top_k, List.insertionSort,
      List.orderedInsert, show Int.toNat 3 = 3 from rfl,
      List.take_succ_cons, List.getLast?_cons_cons,
      List.getLast?_singleton])
    (by norm_num [finalNMaskOf])
    (by norm_num)
    (by norm_num)

/-! ### C3 -/

/-- C3 counterexample: on a successful run (one positive anchor, one
eligible negative, batch_size 1) `ssd_losses` produces the three scalar
loss terms — but registers them through `tf.losses.add_loss` and returns
`None` to its caller (the function body, lines 540-562, ends in `pass`
with no `return` statement), so it does not return the three scalar loss
terms as the claim states. -/
theorem C3_counterexample :
    (ssd_losses (fun x => x + 2) (fun _ => 0) [[[0, 0], [0, 1]]]
      [[[0, 0, 0, 0], [0, 0, 0, 0]]] [[1, 0]]
      [[[0, 0, 0, 0], [0, 0, 0, 0]]] [[(1 : ℚ), 0]] (1/2) 3 1 0 1).map
      SSDLossResult.ret = some none ∧
    (ssd_losses (fun x => x + 2) (fun _ => 0) [[[0, 0], [0, 1]]]
      [[[0, 0, 0, 0], [0, 0, 0, 0]]] [[1, 0]]
      [[[0, 0, 0, 0], [0, 0, 0, 0]]] [[(1 : ℚ), 0]] (1/2) 3 1 0 1).map
      SSDLossResult.addedLosses = some [some 0, some 0, some 0] := by
  have hres : ssd_losses (fun x => x + 2) (fun _ => 0) [[[0, 0], [0, 1]]]
      [[[0, 0, 0, 0], [0, 0, 0, 0]]] [[1, 0]]
      [[[0, 0, 0, 0], [0, 0, 0, 0]]] [[(1 : ℚ), 0]] (1/2) 3 1 0 1 =
      some (SSDLossResult.mk [some 0, some 0, some 0] none) := by
    norm_num [ssd_losses, ssd_losses_flat, flattenConcat, pmaskOf, nmaskOf,
      nvaluesOf, noClassesOf, nNegOf, maxHardPredOf, tf_top_k, i32cast,
      b2q, softmax0, sce, abs_smooth, finalNMaskOf, cross_entropy_pos_loss,
      cross_entropy_neg_loss, localization_loss, tfDivQ,
      List.insertionSort, List.orderedInsert,
      show Int.toNat 1 = 1 from rfl, List.take_succ_cons,
      List.getLast?_cons_cons, List.getLast?_singleton]
  rw [hres]
  exact ⟨rfl, rfl⟩

/-- C3 (amended): `ssd_losses` does not mutate its inputs (the embedding is
a pure function of them); on every non-raising run it computes the three
scalar loss terms — positive classification, hard-negative classification,
localization — registers each into the framework's global loss collection
(`tf.losses.add_loss`), and returns `None` to its caller; `SSDNet.losses`
is a pure delegation returning the same `None`. -/
theorem C3_losses_registered_not_returned (exp log : ℚ → ℚ)
    (logits localisations : List (List (List ℚ)))
    (gclasses : List (List ℕ)) (glocalisations : List (List (List ℚ)))
    (gscores : List (List ℚ)) (th ratio alpha lsm : ℚ) (batch : ℕ)
    (mhp : ℚ) (res : SSDLossResult)
    (hmhp : maxHardPredOf (nvaluesOf (nmaskOf (pmaskOf th
        (flattenConcat gscores)) (flattenConcat gscores))
      ((flattenConcat logits).map (softmax0 exp)))
      (nNegOf ratio batch (((pmaskOf th (flattenConcat gscores)).map
        b2q).sum) (i32cast (((nmaskOf (pmaskOf th (flattenConcat gscores))
        (flattenConcat gscores)).map b2q).sum))) = some mhp)
    (hres : ssd_losses exp log logits localisations gclasses
      glocalisations gscores th ratio alpha lsm batch = some res) :
    res.ret = none ∧
    res.addedLosses =
      [cross_entropy_pos_loss exp log (flattenConcat logits)
        (flattenConcat gclasses)
        ((pmaskOf th (flattenConcat gscores)).map b2q) batch,
       cross_entropy_neg_loss exp log (flattenConcat logits)
        (noClassesOf (pmaskOf th (flattenConcat gscores)))
        ((finalNMaskOf (nmaskOf (pmaskOf th (flattenConcat gscores))
          (flattenConcat gscores))
          (nvaluesOf (nmaskOf (pmaskOf th (flattenConcat gscores))
            (flattenConcat gscores))
            ((flattenConcat logits).map (softmax0 exp))) mhp).map b2q)
        batch,
       localization_loss (flattenConcat localisations)
        (flattenConcat glocalisations)
        ((pmaskOf th (flattenConcat gscores)).map b2q) alpha batch] ∧
    ssdnet_losses exp log logits localisations gclasses glocalisations
      gscores th ratio alpha lsm batch =
      ssd_losses exp log logits localisations gclasses glocalisations
        gscores th ratio alpha lsm batch := by
  simp only [ssd_losses, ssd_losses_flat] at hres
  rw [hmhp] at hres
  obtain rfl := (Option.some.inj hres).symm
  exact ⟨rfl, rfl, rfl⟩

/-- C3 witness: the amended theorem at the two-anchor input of the
counterexample, where the three registered loss terms all evaluate to 0
and the returned value is `None`. -/
theorem C3_losses_registered_not_returned_witness :
    (SSDLossResult.mk [some 0, some 0, some 0] none).ret = none ∧
    (SSDLossResult.mk [some 0, some 0, some 0] none).addedLosses =
      [cross_entropy_pos_loss (fun x => x + 2) (fun _ => 0)
        (flattenConcat [[[0, 0], [0, 1]]]) (flattenConcat [[1, 0]])
        ((pmaskOf (1/2) (flattenConcat [[(1 : ℚ), 0]])).map b2q) 1,
       cross_entropy_neg_loss (fun x => x + 2) (fun _ => 0)
        (flattenConcat [[[0, 0], [0, 1]]])
        (noClassesOf (pmaskOf (1/2) (flattenConcat [[(1 : ℚ), 0]])))
        ((finalNMaskOf (nmaskOf (pmaskOf (1/2)
            (flattenConcat [[(1 : ℚ), 0]]))
          (flattenConcat [[(1 : ℚ), 0]]))
          (nvaluesOf (nmaskOf (pmaskOf (1/2)
              (flattenConcat [[(1 : ℚ), 0]]))
            (flattenConcat [[(1 : ℚ), 0]]))
            ((flattenConcat [[[0, 0], [0, 1]]]).map
              (softmax0 (fun x => x + 2)))) (2/5)).map b2q) 1,
       localization_loss (flattenConcat [[[0, 0, 0, 0], [0, 0, 0, 0]]])
        (flattenConcat [[[0, 0, 0, 0], [0, 0, 0, 0]]])
        ((pmaskOf (1/2) (flattenConcat [[(1 : ℚ), 0]])).map b2q) 1 1] ∧
    ssdnet_losses (fun x => x + 2) (fun _ => 0) [[[0, 0], [0, 1]]]
      [[[0, 0, 0, 0], [0, 0, 0, 0]]] [[1, 0]]
      [[[0, 0, 0, 0], [0, 0, 0, 0]]] [[(1 : ℚ), 0]] (1/2) 3 1 0 1 =
      ssd_losses (fun x => x + 2) (fun _ => 0) [[[0, 0], [0, 1]]]
      [[[0, 0, 0, 0], [0, 0, 0, 0]]] [[1, 0]]
      [[[0, 0, 0, 0], [0, 0, 0, 0]]] [[(1 : ℚ), 0]] (1/2) 3 1 0 1 :=
  C3_losses_registered_not_returned (fun x => x + 2) (fun _ => 0)
    [[[0, 0], [0, 1]]] [[[0, 0, 0, 0], [0, 0, 0, 0]]] [[1, 0]]
    [[[0, 0, 0, 0], [0, 0, 0, 0]]] [[(1 : ℚ), 0]] (1/2) 3 1 0 1 (2/5)
    (SSDLossResult.mk [some 0, some 0, some 0] none)
    (by norm_num [flattenConcat, pmaskOf, nmaskOf, nvaluesOf, nNegOf,
      maxHardPredOf, tf_top_k, i32cast, b2q, softmax0,
      List.insertionSort, List.orderedInsert,
      show Int.toNat 1 = 1 from rfl, List.take_succ_cons,
      List.getLast?_cons_cons, List.getLast?_singleton])
    (by norm_num [ssd_losses, ssd_losses_flat, flattenConcat, pmaskOf,
      nmaskOf, nvaluesOf, noClassesOf, nNegOf, maxHardPredOf, tf_top_k,
      i32cast, b2q, softmax0, sce, abs_smooth, finalNMaskOf,
      cross_entropy_pos_loss, cross_entropy_neg_loss, localization_loss,
      tfDivQ, List.insertionSort, List.orderedInsert,
      show Int.toNat 1 = 1 from rfl, List.take_succ_cons,
      List.getLast?_cons_cons, List.getLast?_singleton])

end SSD
